import Mathlib

/-!
Verification of the presolve control vocabulary of dwave-preprocessing
(`dwave/preprocessing/include/dwave/flags.hpp`): the `Feasibility`
tri-state verdict and the `TechniqueFlags` bitmask, together with the
operations the specification defines over them.
-/

namespace DwavePresolve

/-- The `Feasibility` enumeration from `flags.hpp`, in source order:
`Infeasible`, `Feasible`, `Unknown`. -/
inductive Feasibility where
  | Infeasible
  | Feasible
  | Unknown
deriving DecidableEq, Repr, Fintype

/-- The underlying integral value of each enumerator, assigned by C++
enumeration rules from the source order (first enumerator is 0). -/
def Feasibility.toValue : Feasibility → Nat
  | .Infeasible => 0
  | .Feasible => 1
  | .Unknown => 2

/-- The enumerator denoted by a given underlying value, when any. -/
def Feasibility.fromValue : Nat → Option Feasibility
  | 0 => some .Infeasible
  | 1 => some .Feasible
  | 2 => some .Unknown
  | _ => none

/-- A `TechniqueSet` is a bitmask over an unsigned 64-bit domain; we model
the values as natural numbers below `2 ^ 64`. -/
abbrev TechniqueSet := Nat

/-- The 64-bit representability bound on `TechniqueSet` values. -/
def TechniqueSet.isValid (s : TechniqueSet) : Prop := s < 2 ^ 64

namespace TechniqueFlags

/-- `None = 0` from `flags.hpp`: all bits clear. -/
def None : TechniqueSet := 0

/-- `RemoveRedundantConstraints = 1 << 0` from `flags.hpp`. -/
def RemoveRedundantConstraints : TechniqueSet := 1 <<< 0

/-- `RemoveSmallBiases = 1 << 1` from `flags.hpp`. -/
def RemoveSmallBiases : TechniqueSet := 1 <<< 1

/-- `DomainPropagation = 1 << 2` from `flags.hpp`. -/
def DomainPropagation : TechniqueSet := 1 <<< 2

/-- `All = 0xffffffffffffffffu` from `flags.hpp`: all 64 bits set. -/
def All : TechniqueSet := 0xffffffffffffffff

/-- `Default = All` from `flags.hpp`. -/
def Default : TechniqueSet := All

end TechniqueFlags

/-- Modelled from the spec: `Union(a, b)` is the bitwise OR of two
`TechniqueSet` values (the operation itself is not in `src/`; only the
flag constants are). -/
def Union (a b : TechniqueSet) : TechniqueSet := a ||| b

/-- Modelled from the spec: `Intersection(a, b)` is the bitwise AND of two
`TechniqueSet` values (the operation itself is not in `src/`). -/
def Intersection (a b : TechniqueSet) : TechniqueSet := a &&& b

/-- Modelled from the spec: `Contains(set, technique)` is true iff every
bit set in `technique` is also set in `set` (the operation itself is not
in `src/`). -/
def Contains (s t : TechniqueSet) : Bool := s &&& t == t

/-- Modelled from the spec, section 3: the membership formula
`(S & T) != None` for testing whether technique `T` is enabled in set
`S`. -/
def memberFormula (s t : TechniqueSet) : Bool := !(s &&& t == TechniqueFlags.None)

/-- Result of the narrowing merge: either a verdict, or the
internal-consistency error the spec requires for conflicting terminal
proofs. -/
inductive NarrowResult where
  | ok (v : Feasibility)
  | internalConsistencyError
deriving DecidableEq, Repr

/-- Modelled from the spec: `Narrow(current, proposed)` returns `proposed`
only if `current` is `Unknown` and otherwise returns `current` unchanged,
except that conflicting terminal proofs (`Feasible` against `Infeasible`
in either order) are surfaced as an internal-consistency error to the
caller rather than silently resolved (the operation itself is not in
`src/`). -/
def Narrow (current proposed : Feasibility) : NarrowResult :=
  match current, proposed with
  | .Feasible, .Infeasible => .internalConsistencyError
  | .Infeasible, .Feasible => .internalConsistencyError
  | .Unknown, p => .ok p
  | c, _ => .ok c

/-- The union of the three named technique bits (bits 0, 1 and 2); the
reserved bits are exactly those outside this mask. -/
def namedMask : TechniqueSet :=
  TechniqueFlags.RemoveRedundantConstraints |||
    TechniqueFlags.RemoveSmallBiases ||| TechniqueFlags.DomainPropagation

/-! ### Helper lemmas -/

lemma land_all_of_lt {n : Nat} (h : n < 2 ^ 64) :
    n &&& TechniqueFlags.All = n := by
  apply Nat.eq_of_testBit_eq
  intro i
  rw [Nat.testBit_land]
  by_cases hi : i < 64
  · have hA : Nat.testBit TechniqueFlags.All i = true := by
      have hAll : TechniqueFlags.All = 2 ^ 64 - 1 := by decide
      rw [hAll, Nat.testBit_two_pow_sub_one]
      simpa using hi
    simp [hA]
  · have h1 : Nat.testBit n i = false := by
      apply Nat.testBit_lt_two_pow
      calc n < 2 ^ 64 := h
        _ ≤ 2 ^ i := Nat.pow_le_pow_right (by omega) (by omega)
    simp [h1]

lemma lor_all_of_lt {n : Nat} (h : n < 2 ^ 64) :
    n ||| TechniqueFlags.All = TechniqueFlags.All := by
  apply Nat.eq_of_testBit_eq
  intro i
  rw [Nat.testBit_lor]
  by_cases hi : i < 64
  · have hA : Nat.testBit TechniqueFlags.All i = true := by
      have hAll : TechniqueFlags.All = 2 ^ 64 - 1 := by decide
      rw [hAll, Nat.testBit_two_pow_sub_one]
      simpa using hi
    simp [hA]
  · have h1 : Nat.testBit n i = false := by
      apply Nat.testBit_lt_two_pow
      calc n < 2 ^ 64 := h
        _ ≤ 2 ^ i := Nat.pow_le_pow_right (by omega) (by omega)
    simp [h1]

/-- On a single-bit technique `2 ^ k` the subset test and the nonempty
intersection formula coincide. -/
lemma contains_two_pow (S k : Nat) :
    Contains S (2 ^ k) = memberFormula S (2 ^ k) := by
  unfold Contains memberFormula TechniqueFlags.None
  rw [Nat.and_two_pow]
  have hk : 2 ^ k ≠ 0 := (Nat.two_pow_pos k).ne'
  cases h : S.testBit k <;> simp [hk, Ne.symm hk]

/-- Adding bits at positions where `R` is clear does not change membership
of the single-bit technique `2 ^ k` when `R` has bit `k` clear. -/
lemma contains_lor_two_pow (S R k : Nat) (hR : Nat.testBit R k = false) :
    Contains (S ||| R) (2 ^ k) = Contains S (2 ^ k) := by
  unfold Contains
  rw [Nat.and_two_pow, Nat.and_two_pow, Nat.testBit_lor, hR, Bool.or_false]

/-- A reserved-only set (disjoint from the named mask) has the three named
bits clear. -/
lemma reserved_testBit {R : Nat} (hR : Intersection R namedMask = TechniqueFlags.None)
    (k : Nat) (hk : k < 3) : Nat.testBit R k = false := by
  have hmask : Nat.testBit namedMask k = true := by
    interval_cases k <;> decide
  have := congrArg (fun n => Nat.testBit n k) hR
  simpa [Intersection, TechniqueFlags.None, Nat.testBit_land, hmask] using this

/-! ### Claim theorems -/

/-- C1 (counterexample): the claim asserts that whenever `current` is not
`Unknown`, `Narrow(current, proposed)` returns `current` unchanged for
every `proposed`; at the concrete input `(Feasible, Infeasible)` the
narrowing merge instead surfaces the internal-consistency error, so it
does not return `Feasible`. -/
theorem narrow_conflict_not_current :
    (Narrow Feasibility.Feasible Feasibility.Infeasible ==
      NarrowResult.ok Feasibility.Feasible) = false := by decide

/-- C1 (amended): for every pair `(current, proposed)` that is not a pair
of opposite terminal verdicts, `Narrow(current, proposed)` returns
`proposed` if `current` is `Unknown` and otherwise returns `current`
unchanged; in particular `Narrow(Feasible, Unknown) = Feasible`,
`Narrow(Infeasible, Unknown) = Infeasible`, and narrowing `Unknown` to
`Feasible` and then narrowing the result by `Feasible` again yields
`Feasible`. -/
theorem narrow_monotonic_merge :
    (∀ current proposed : Feasibility,
      ¬((current = .Feasible ∧ proposed = .Infeasible) ∨
          (current = .Infeasible ∧ proposed = .Feasible)) →
        Narrow current proposed =
          .ok (if current = .Unknown then proposed else current)) ∧
    Narrow .Feasible .Unknown = .ok .Feasible ∧
    Narrow .Infeasible .Unknown = .ok .Infeasible ∧
    (∀ f : Feasibility, Narrow .Unknown .Feasible = .ok f →
      Narrow f .Feasible = .ok .Feasible) := by decide

/-- C1 (witness): the amended theorem applied at the concrete pair
`(Feasible, Feasible)`. -/
theorem narrow_monotonic_merge_witness :
    Narrow Feasibility.Feasible Feasibility.Feasible =
      NarrowResult.ok (if Feasibility.Feasible = Feasibility.Unknown
        then Feasibility.Feasible else Feasibility.Feasible) :=
  narrow_monotonic_merge.1 Feasibility.Feasible Feasibility.Feasible (by decide)

/-- C2: narrowing a terminal verdict by the opposite terminal verdict, in
either order, surfaces the internal-consistency error and never returns
`Feasible` or `Infeasible` (or any verdict) silently. -/
theorem narrow_conflict_is_error :
    Narrow Feasibility.Feasible Feasibility.Infeasible =
      NarrowResult.internalConsistencyError ∧
    Narrow Feasibility.Infeasible Feasibility.Feasible =
      NarrowResult.internalConsistencyError ∧
    (∀ v : Feasibility,
      (Narrow Feasibility.Feasible Feasibility.Infeasible == NarrowResult.ok v) = false) ∧
    (∀ v : Feasibility,
      (Narrow Feasibility.Infeasible Feasibility.Feasible == NarrowResult.ok v) = false) := by
  decide

/-- C3 (counterexample): the subset test `Contains` and the membership
formula `(S & T) != None` disagree at concrete inputs: at
`S = RemoveRedundantConstraints`, `T = None` the subset test is true while
the formula is false, and at `S = RemoveRedundantConstraints`,
`T = Union(RemoveRedundantConstraints, RemoveSmallBiases)` the subset test
is false while the formula is true. -/
theorem contains_vs_member_formula_disagree :
    (Contains TechniqueFlags.RemoveRedundantConstraints TechniqueFlags.None = true ∧
      memberFormula TechniqueFlags.RemoveRedundantConstraints TechniqueFlags.None = false) ∧
    (Contains TechniqueFlags.RemoveRedundantConstraints
        (Union TechniqueFlags.RemoveRedundantConstraints TechniqueFlags.RemoveSmallBiases) = false ∧
      memberFormula TechniqueFlags.RemoveRedundantConstraints
        (Union TechniqueFlags.RemoveRedundantConstraints TechniqueFlags.RemoveSmallBiases) = true) := by
  decide

/-- C3 (amended): for every set `S` the subset test `Contains(S, T)` and
the membership formula `(S & T) != None` agree whenever `T` is one of the
three single-bit named techniques. -/
theorem contains_eq_member_formula_on_named (S T : TechniqueSet)
    (h : T = TechniqueFlags.RemoveRedundantConstraints ∨
        T = TechniqueFlags.RemoveSmallBiases ∨
        T = TechniqueFlags.DomainPropagation) :
    Contains S T = memberFormula S T := by
  have h0 : TechniqueFlags.RemoveRedundantConstraints = 2 ^ 0 := by decide
  have h1 : TechniqueFlags.RemoveSmallBiases = 2 ^ 1 := by decide
  have h2 : TechniqueFlags.DomainPropagation = 2 ^ 2 := by decide
  rcases h with h | h | h <;> subst h
  · rw [h0]; exact contains_two_pow S 0
  · rw [h1]; exact contains_two_pow S 1
  · rw [h2]; exact contains_two_pow S 2

/-- C3 (witness): the amended theorem applied at `S = 5` and
`T = RemoveSmallBiases`. -/
theorem contains_eq_member_formula_on_named_witness :
    Contains 5 TechniqueFlags.RemoveSmallBiases =
      memberFormula 5 TechniqueFlags.RemoveSmallBiases :=
  contains_eq_member_formula_on_named 5 TechniqueFlags.RemoveSmallBiases
    (Or.inr (Or.inl rfl))

/-- C4: `Default` equals `All`, and `Contains(Default, T)` is true for
each of the three named techniques. -/
theorem default_is_all_and_contains_named :
    TechniqueFlags.Default = TechniqueFlags.All ∧
    Contains TechniqueFlags.Default TechniqueFlags.RemoveRedundantConstraints = true ∧
    Contains TechniqueFlags.Default TechniqueFlags.RemoveSmallBiases = true ∧
    Contains TechniqueFlags.Default TechniqueFlags.DomainPropagation = true := by
  decide

/-- C5: `All` has all 64 bits set (each bit below 64 is set and the value
is below `2 ^ 64`), and `Contains(All, T)` is true for every named
technique and for every 64-bit value `T`, reserved-bit values included. -/
theorem all_has_all_bits_and_contains_everything :
    (∀ i, i < 64 → Nat.testBit TechniqueFlags.All i = true) ∧
    TechniqueFlags.All < 2 ^ 64 ∧
    Contains TechniqueFlags.All TechniqueFlags.RemoveRedundantConstraints = true ∧
    Contains TechniqueFlags.All TechniqueFlags.RemoveSmallBiases = true ∧
    Contains TechniqueFlags.All TechniqueFlags.DomainPropagation = true ∧
    (∀ T : TechniqueSet, T < 2 ^ 64 → Contains TechniqueFlags.All T = true) := by
  refine ⟨?_, by decide, by decide, by decide, by decide, ?_⟩
  · intro i hi
    have hAll : TechniqueFlags.All = 2 ^ 64 - 1 := by decide
    rw [hAll, Nat.testBit_two_pow_sub_one]
    simpa using hi
  · intro T hT
    have : TechniqueFlags.All &&& T = T := by
      rw [Nat.land_comm]; exact land_all_of_lt hT
    simp [Contains, this]

/-- C5 (witness): the theorem applied at bit 63 and at the reserved-bit
value `2 ^ 40`. -/
theorem all_has_all_bits_witness :
    Nat.testBit TechniqueFlags.All 63 = true ∧
    Contains TechniqueFlags.All (2 ^ 40) = true :=
  ⟨all_has_all_bits_and_contains_everything.1 63 (by decide),
    all_has_all_bits_and_contains_everything.2.2.2.2.2 (2 ^ 40) (by decide)⟩

/-- C6: the named techniques are the single-bit values
`RemoveRedundantConstraints = bit 0`, `RemoveSmallBiases = bit 1`,
`DomainPropagation = bit 2`; any two distinct named techniques intersect
to `None`, and `None` is the all-bits-clear value `0`. -/
theorem named_techniques_single_bit_disjoint :
    TechniqueFlags.RemoveRedundantConstraints = 2 ^ 0 ∧
    TechniqueFlags.RemoveSmallBiases = 2 ^ 1 ∧
    TechniqueFlags.DomainPropagation = 2 ^ 2 ∧
    Intersection TechniqueFlags.RemoveRedundantConstraints
      TechniqueFlags.RemoveSmallBiases = TechniqueFlags.None ∧
    Intersection TechniqueFlags.RemoveRedundantConstraints
      TechniqueFlags.DomainPropagation = TechniqueFlags.None ∧
    Intersection TechniqueFlags.RemoveSmallBiases
      TechniqueFlags.DomainPropagation = TechniqueFlags.None ∧
    Intersection TechniqueFlags.RemoveSmallBiases
      TechniqueFlags.RemoveRedundantConstraints = TechniqueFlags.None ∧
    Intersection TechniqueFlags.DomainPropagation
      TechniqueFlags.RemoveRedundantConstraints = TechniqueFlags.None ∧
    Intersection TechniqueFlags.DomainPropagation
      TechniqueFlags.RemoveSmallBiases = TechniqueFlags.None ∧
    TechniqueFlags.None = 0 := by
  decide

/-- C7: `Union` and `Intersection` are commutative and associative;
`None` is the identity and `All` the absorbing element for `Union`, and
`All` is the identity and `None` the absorbing element for
`Intersection`, over all 64-bit `TechniqueSet` values. -/
theorem union_intersection_algebra :
    (∀ a b : TechniqueSet, Union a b = Union b a) ∧
    (∀ a b c : TechniqueSet, Union (Union a b) c = Union a (Union b c)) ∧
    (∀ a b : TechniqueSet, Intersection a b = Intersection b a) ∧
    (∀ a b c : TechniqueSet,
      Intersection (Intersection a b) c = Intersection a (Intersection b c)) ∧
    (∀ S : TechniqueSet, Union S TechniqueFlags.None = S) ∧
    (∀ S : TechniqueSet, S < 2 ^ 64 →
      Union S TechniqueFlags.All = TechniqueFlags.All) ∧
    (∀ S : TechniqueSet, S < 2 ^ 64 →
      Intersection S TechniqueFlags.All = S) ∧
    (∀ S : TechniqueSet, Intersection S TechniqueFlags.None = TechniqueFlags.None) := by
  refine ⟨Nat.lor_comm, Nat.lor_assoc, Nat.land_comm, Nat.land_assoc, ?_, ?_, ?_, ?_⟩
  · intro S; simp [Union, TechniqueFlags.None]
  · intro S hS; exact lor_all_of_lt hS
  · intro S hS; exact land_all_of_lt hS
  · intro S; simp [Intersection, TechniqueFlags.None]

/-- C7 (witness): the identity and absorption laws with `All` applied at
the concrete value `S = 7`. -/
theorem union_intersection_algebra_witness :
    Union 7 TechniqueFlags.All = TechniqueFlags.All ∧
    Intersection 7 TechniqueFlags.All = 7 :=
  ⟨union_intersection_algebra.2.2.2.2.2.1 7 (by decide),
    union_intersection_algebra.2.2.2.2.2.2.1 7 (by decide)⟩

/-- C8: every natural number below `2 ^ 64` is a valid `TechniqueSet`;
the type is closed under `Union` and `Intersection`; a reserved-bits-only
value is accepted unchanged by `Union` with `None` (not masked), and
adding a reserved-bits-only value to any set leaves membership of each
named technique unchanged (reserved bits are inert). -/
theorem technique_set_closed_and_reserved_inert :
    (∀ n : Nat, n < 2 ^ 64 → TechniqueSet.isValid n) ∧
    (∀ S T : TechniqueSet, TechniqueSet.isValid S → TechniqueSet.isValid T →
      TechniqueSet.isValid (Union S T) ∧ TechniqueSet.isValid (Intersection S T)) ∧
    (∀ R : TechniqueSet, Union TechniqueFlags.None R = R) ∧
    (∀ S R : TechniqueSet, Intersection R namedMask = TechniqueFlags.None →
      Contains (Union S R) TechniqueFlags.RemoveRedundantConstraints =
          Contains S TechniqueFlags.RemoveRedundantConstraints ∧
        Contains (Union S R) TechniqueFlags.RemoveSmallBiases =
          Contains S TechniqueFlags.RemoveSmallBiases ∧
        Contains (Union S R) TechniqueFlags.DomainPropagation =
          Contains S TechniqueFlags.DomainPropagation) := by
  refine ⟨fun n h => h, ?_, ?_, ?_⟩
  · intro S T hS hT
    exact ⟨Nat.bitwise_lt hS hT, Nat.bitwise_lt hS hT⟩
  · intro R; simp [Union, TechniqueFlags.None]
  · intro S R hR
    have h0 : TechniqueFlags.RemoveRedundantConstraints = 2 ^ 0 := by decide
    have h1 : TechniqueFlags.RemoveSmallBiases = 2 ^ 1 := by decide
    have h2 : TechniqueFlags.DomainPropagation = 2 ^ 2 := by decide
    refine ⟨?_, ?_, ?_⟩
    · rw [h0]; exact contains_lor_two_pow S R 0 (reserved_testBit hR 0 (by omega))
    · rw [h1]; exact contains_lor_two_pow S R 1 (reserved_testBit hR 1 (by omega))
    · rw [h2]; exact contains_lor_two_pow S R 2 (reserved_testBit hR 2 (by omega))

/-- C8 (witness): the theorem applied at concrete values, with the
reserved-bits-only value `R = 2 ^ 10`. -/
theorem technique_set_closed_witness :
    TechniqueSet.isValid 12345 ∧
    TechniqueSet.isValid (Union 3 5) ∧
    Contains (Union 5 (2 ^ 10)) TechniqueFlags.DomainPropagation =
      Contains 5 TechniqueFlags.DomainPropagation :=
  ⟨technique_set_closed_and_reserved_inert.1 12345 (by decide),
    (technique_set_closed_and_reserved_inert.2.1 3 5
      (show (3 : Nat) < 2 ^ 64 by decide) (show (5 : Nat) < 2 ^ 64 by decide)).1,
    (technique_set_closed_and_reserved_inert.2.2.2 5 (2 ^ 10) (by decide)).2.2⟩

/-- C9: for each named technique `T`, `Contains(Union(None, T), T)` is
true and `Contains(None, T)` is false. -/
theorem contains_union_none_named :
    Contains (Union TechniqueFlags.None TechniqueFlags.RemoveRedundantConstraints)
      TechniqueFlags.RemoveRedundantConstraints = true ∧
    Contains (Union TechniqueFlags.None TechniqueFlags.RemoveSmallBiases)
      TechniqueFlags.RemoveSmallBiases = true ∧
    Contains (Union TechniqueFlags.None TechniqueFlags.DomainPropagation)
      TechniqueFlags.DomainPropagation = true ∧
    Contains TechniqueFlags.None TechniqueFlags.RemoveRedundantConstraints = false ∧
    Contains TechniqueFlags.None TechniqueFlags.RemoveSmallBiases = false ∧
    Contains TechniqueFlags.None TechniqueFlags.DomainPropagation = false := by
  decide

/-- C10: in the `Feasibility` enumeration the first enumerator is
`Infeasible` with underlying value 0, followed by `Feasible = 1` and
`Unknown = 2`; hence the value of a zero-initialized `Feasibility` denotes
`Infeasible`, which is not `Unknown`. -/
theorem feasibility_enum_layout :
    Feasibility.toValue .Infeasible = 0 ∧
    Feasibility.toValue .Feasible = 1 ∧
    Feasibility.toValue .Unknown = 2 ∧
    Feasibility.fromValue 0 = some .Infeasible ∧
    (Feasibility.fromValue 0 == some Feasibility.Unknown) = false := by
  decide

end DwavePresolve
